import Mathlib

/-!
# Verification of the `kvs` log-structured storage engine

Shallow embedding of the storage engine of the `kvs` repository:

* `src/logformat/src/entry.rs` — the on-disk record types (`file::Value`,
  `file::Entry`) and their bincode encoding (fixed 64-byte slots);
* `src/logformat/src/writer.rs` — `LogWriter` (byte level, with injected
  I/O failures);
* `src/store/src/kv.rs` — the `KvStore` engine: `open`, `load`, `set`,
  `get`, `remove`, `push`, `compact`, `compact_all`.

The `LogReader` used by `src/store/src/kv.rs` (`seek`, `read_entry`,
`entry_at`, `read_file_entry`, `lookup_file_value`) is not present under
`src/` (the `reader.rs` there belongs to a different snapshot of the
crate), so those operations are modelled from §4.4 of the specification;
each such definition is marked `Modelled from the spec:` below.

Machine integers are modelled as `Nat`/`Int`; Rust strings are modelled
as `List Char`, and the data file as a `List Char` (UTF-8 encoding and
decoding are inverse on the payloads the engine writes, so the byte/char
distinction is immaterial at the engine level).  Buffered writes are
modelled as immediately applied, so `flush` is the identity.
-/

set_option autoImplicit false

namespace Kvs

/-! ## On-disk record types (`src/logformat/src/entry.rs`, mod `file`) -/

namespace file

/-- Rust `file::Value`: either a `{start,len}` reference into the data file
(both `u64`) or an inline `i128` integer. -/
inductive Value where
  | String (start len : Nat)
  | Integer (value : Int)
  deriving DecidableEq, Repr

/-- Rust `file::Entry`: a single command, `Set {key, value}` or `Remove {key}`. -/
inductive Entry where
  | Set (key value : Value)
  | Remove (key : Value)
  deriving DecidableEq, Repr

/-- Rust `file::SERIALIZED_ENTRY_SIZE`: the fixed byte size of a log slot. -/
def SERIALIZED_ENTRY_SIZE : Nat := 64

/-- Rust `file::MAX_ENTRIES_PER_FILE`: the per-generation entry cap. -/
def MAX_ENTRIES_PER_FILE : Nat := 0x1000

end file

/-! ## In-memory types (`src/logformat/src/entry.rs`, mod `mem`) -/

namespace mem

/-- Rust `mem::Value`: a decoded value, either a string or an inline integer.
Rust strings are modelled as `List Char`. -/
inductive Value where
  | String (s : List Char)
  | Integer (i : Int)
  deriving DecidableEq, Repr

/-- Rust `mem::Key` is a synonym of `mem::Value`. -/
abbrev Key := Value

/-- Rust `mem::Entry`: a decoded command. -/
inductive Entry where
  | Set (key value : Value)
  | Remove (key : Value)
  deriving DecidableEq, Repr

end mem

/-- Rust `impl fmt::Display for mem::Value` (used by `get` via `format!`):
a string displays as itself, an integer as its decimal form. -/
def displayValue : mem.Value → List Char
  | .String s => s
  | .Integer i => (toString i).toList

/-! ## bincode encoding (bincode 1.x `serialize`: little-endian, fixed-width
integers; enum variant indices are `u32`; `Option` is one tag byte). -/

/-- Little-endian byte encoding of `n % 256^k` on exactly `k` bytes. -/
def toLEBytes : Nat → Nat → List Nat
  | 0, _ => []
  | k + 1, n => n % 256 :: toLEBytes k (n / 256)

/-- The `u32` little-endian encoding (4 bytes). -/
def u32le (n : Nat) : List Nat := toLEBytes 4 n

/-- The `u64` little-endian encoding (8 bytes). -/
def u64le (n : Nat) : List Nat := toLEBytes 8 n

/-- The `i128` little-endian two's-complement encoding (16 bytes). -/
def i128le (i : Int) : List Nat := toLEBytes 16 (i % (2 ^ 128)).toNat

/-- bincode encoding of `file::Value` (variant index as `u32`, then the
fields in declaration order). -/
def serializeValue : file.Value → List Nat
  | .String start len => u32le 0 ++ u64le start ++ u64le len
  | .Integer value => u32le 1 ++ i128le value

/-- bincode encoding of `file::Entry`. -/
def serializeEntry : file.Entry → List Nat
  | .Set key value => u32le 0 ++ serializeValue key ++ serializeValue value
  | .Remove key => u32le 1 ++ serializeValue key

/-- bincode encoding of `Option<file::Entry>` (as produced by
`bincode::serialize(&Some(entry))` in `write_file_entry`): a one-byte
presence tag followed by the entry. -/
def serializeOptEntry : Option file.Entry → List Nat
  | none => [0]
  | some e => 1 :: serializeEntry e

/-- Rust `Vec::resize(n, 0)`: truncate to `n` elements if longer, pad with
zeros if shorter. -/
def vecResize (l : List Nat) (n : Nat) : List Nat :=
  l.take n ++ List.replicate (n - l.length) 0

/-! ## `LogWriter` (`src/logformat/src/writer.rs`), byte level

The writer owns the log file (`entry_writer`), the data file
(`data_writer`) and the entry position counter `entry_pos`.  Each
`write`/`write_all` call may fail with an I/O error; failures are
injected through a `WOutcome` parameter.  A failing `write` may have
transferred a prefix of the buffer (`fail written`). -/

structure LogWriter where
  entryFile : List Nat
  entry_pos : Nat
  dataFile : List Nat
  deriving DecidableEq, Repr

/-- Outcome of one underlying `write`/`write_all` call: success, or an
I/O error after `written` bytes were transferred. -/
inductive WOutcome where
  | success
  | fail (written : Nat)
  deriving DecidableEq, Repr

/-- The `logformat` error type (`src/logformat/src/error.rs`), restricted
to the variants the modelled operations can produce. -/
inductive LfError where
  | IoError
  | BincodeError
  | FromUtf8Error
  | SeekError
  deriving DecidableEq, Repr

/-- Write `bytes` into `f` starting at byte offset `p`; a hole between
the end of the file and `p` reads back as zero bytes. -/
def writeBytesAt (f : List Nat) (p : Nat) (bytes : List Nat) : List Nat :=
  f.take p ++ List.replicate (p - f.length) 0 ++ bytes ++ f.drop (p + bytes.length)

namespace LogWriter

/-- Rust `LogWriter::write_file_entry`: serialize `Some(entry)`, pad to
`SERIALIZED_ENTRY_SIZE` bytes, `write_all` to the log file, and only
then return the pre-increment position and advance `entry_pos`.
Per §4.3 of the spec the slot lands at offset `entry_pos * S`.  On an
I/O error the position counter is not incremented. -/
def write_file_entry (w : LogWriter) (entry : file.Entry) (o : WOutcome) :
    Except LfError Nat × LogWriter :=
  let bytes := vecResize (serializeOptEntry (some entry)) file.SERIALIZED_ENTRY_SIZE
  match o with
  | .fail written =>
      let ef := writeBytesAt w.entryFile (w.entry_pos * file.SERIALIZED_ENTRY_SIZE) (bytes.take written)
      (.error .IoError, { w with entryFile := ef })
  | .success =>
      let pos := w.entry_pos
      let ef := writeBytesAt w.entryFile (pos * file.SERIALIZED_ENTRY_SIZE) bytes
      (.ok pos, { w with entryFile := ef, entry_pos := pos + 1 })

/-- UTF-8 length of a string, in bytes (`s.as_bytes().len()`). -/
def utf8Len (s : List Char) : Nat := (String.mk s).utf8ByteSize

/-- UTF-8 bytes of a string, as `Nat`s. -/
def utf8Bytes (s : List Char) : List Nat :=
  ((String.mk s).toUTF8.toList.map UInt8.toNat)

/-- Rust `LogWriter::write_value`: an `Integer` is inlined; a `String` is
appended to the data file at its current end (spec §4.3: the data cursor
sits at end-of-file) and replaced by a `{start, len}` reference.  The
underlying `write` call may fail (only a prefix transferred). -/
def write_value (w : LogWriter) (v : mem.Value) (o : WOutcome) :
    Except LfError file.Value × LogWriter :=
  match v with
  | .String s =>
      let start := w.dataFile.length
      match o with
      | .fail written =>
          (.error .IoError, { w with dataFile := w.dataFile ++ (utf8Bytes s).take written })
      | .success =>
          (.ok (.String start (utf8Len s)), { w with dataFile := w.dataFile ++ utf8Bytes s })
  | .Integer i => (.ok (.Integer i), w)

/-- Rust `LogWriter::write_entry`: write the string payloads to the data file
(producing the `file::Value` references), then the padded entry to the
log file.  `o1`/`o2` are the outcomes of the data-file writes for the key
and value, `o3` of the log-file write. -/
def write_entry (w : LogWriter) (e : mem.Entry) (o1 o2 o3 : WOutcome) :
    Except LfError Nat × LogWriter :=
  match e with
  | .Set key value =>
      match write_value w key o1 with
      | (.error er, w1) => (.error er, w1)
      | (.ok fkey, w1) =>
          match write_value w1 value o2 with
          | (.error er, w2) => (.error er, w2)
          | (.ok fvalue, w2) => write_file_entry w2 (.Set fkey fvalue) o3
  | .Remove key =>
      match write_value w key o1 with
      | (.error er, w1) => (.error er, w1)
      | (.ok fkey, w1) => write_file_entry w1 (.Remove fkey) o3

end LogWriter

/-! ## The store engine (`src/store/src/kv.rs`)

At the engine level a generation's log file is modelled at slot
granularity: a `List (Option file.Entry)`, one element per 64-byte slot
(`none` is an all-zero slot, i.e. "no record"); the data file is a
`List Char`.  This is justified by the codec theorems below: every
encoded entry fits in one slot, so a slot decodes back to exactly the
entry written there.  I/O is assumed to succeed at this level; buffered
writes are modelled as immediately applied (`flush` is the identity). -/

/-- The store error type (`src/store/src/error.rs`).  `Panic` is not a
Rust error value: it models a panic via `.expect(..)` on a missing
reader/writer; it is distinguished so that theorems can tell a panic
from an `Err` return. -/
inductive Error where
  | Message (s : List Char)
  | NonExistentKey (k : mem.Key)
  | IoError (e : LfError)
  | Panic
  deriving DecidableEq, Repr

/-- Rust `IndexEntry { gen, location }` from `src/store/src/kv.rs`. -/
structure IndexEntry where
  gen : Nat
  location : Nat
  deriving DecidableEq, Repr

/-- One generation's file pair: the log file (decoded slots) and the
data file. -/
structure GenFile where
  slots : List (Option file.Entry)
  data : List Char
  deriving DecidableEq, Repr

/-- The empty file pair (freshly created files). -/
def GenFile.empty : GenFile := ⟨[], []⟩

/-! ### The in-memory index

`HashMap<mem::Key, IndexEntry>` is modelled as an association list with
at most one binding per key; `insert` replaces in place, `remove`
deletes, `get` finds. -/

/-- Rust `HashMap::get`. -/
def idxLookup (idx : List (mem.Key × IndexEntry)) (k : mem.Key) : Option IndexEntry :=
  match idx with
  | [] => none
  | (k1, e) :: rest => if k1 = k then some e else idxLookup rest k

/-- Rust `HashMap::insert` (replace an existing binding, else append). -/
def idxInsert (idx : List (mem.Key × IndexEntry)) (k : mem.Key) (e : IndexEntry) :
    List (mem.Key × IndexEntry) :=
  match idx with
  | [] => [(k, e)]
  | (k1, e1) :: rest => if k1 = k then (k, e) :: rest else (k1, e1) :: idxInsert rest k e

/-- Rust `HashMap::remove`. -/
def idxRemove (idx : List (mem.Key × IndexEntry)) (k : mem.Key) :
    List (mem.Key × IndexEntry) :=
  match idx with
  | [] => []
  | (k1, e1) :: rest => if k1 = k then rest else (k1, e1) :: idxRemove rest k

/-- Rust `HashMap::contains_key`. -/
def idxContains (idx : List (mem.Key × IndexEntry)) (k : mem.Key) : Bool :=
  (idxLookup idx k).isSome

/-! ### The log reader

Modelled from the spec: the `LogReader` methods used by
`src/store/src/kv.rs` (`seek`, `read_entry`, `entry_at`,
`read_file_entry`, `lookup_file_value`) are absent from `src/`; they are
modelled from §4.4 of the specification.  The reader's cursor carries no
information across engine operations (every operation seeks first), so
the reader is modelled as a pure function of the file pair. -/

/-- Modelled from the spec: resolving a `file::Value` through the data
file (§4.4 `lookupFileValue`; the private `lookup_value` of the present
`reader.rs` snapshot agrees).  A `String` reference seeks to `start` and
reads exactly `len` bytes (`read_exact` fails past end-of-file). -/
def lookup_file_value (f : GenFile) : file.Value → Except Error mem.Value
  | .String start len =>
      if start + len ≤ f.data.length then
        .ok (.String ((f.data.drop start).take len))
      else
        .error (.IoError .IoError)
  | .Integer i => .ok (.Integer i)

/-- Resolving a whole `file::Entry` (the `lookup_entry` of the present
`reader.rs` snapshot; §4.4). -/
def lookup_entry (f : GenFile) : file.Entry → Except Error mem.Entry
  | .Set key value =>
      match lookup_file_value f key with
      | .error e => .error e
      | .ok k =>
          match lookup_file_value f value with
          | .error e => .error e
          | .ok v => .ok (.Set k v)
  | .Remove key =>
      match lookup_file_value f key with
      | .error e => .error e
      | .ok k => .ok (.Remove k)

/-- Modelled from the spec: `entryAt(p)` = `seek(p)` then `readEntry()`
(§4.4).  Reading past the last written slot, or an all-zero slot, yields
`none`; otherwise the slot's entry is resolved through the data file. -/
def entry_at (f : GenFile) (p : Nat) : Except Error (Option mem.Entry) :=
  match f.slots.get? p with
  | none => .ok none
  | some none => .ok none
  | some (some fe) => (lookup_entry f fe).map some

/-- Modelled from the spec: the sequence of decoded records obtained by
`seek(0)` followed by repeated `read_entry()` until it returns `None`
(§4.4): reading stops at end-of-file or at the first absent slot. -/
def readAll (f : GenFile) : List (Option file.Entry) → Except Error (List mem.Entry)
  | [] => .ok []
  | none :: _ => .ok []
  | some fe :: rest =>
      match lookup_entry f fe with
      | .error e => .error e
      | .ok e =>
          match readAll f rest with
          | .error e1 => .error e1
          | .ok es => .ok (e :: es)

/-! ### The engine state -/

/-- Rust `KvStore`: files and writer positions are stored per generation
(generation `g` at list index `g`; the engine only ever holds the
contiguous generations `0 ..= current_gen`).  Readers and writers share
the same underlying files, so the file pair is stored once; the writer's
only extra state is its `entry_pos` counter (`wpos`). -/
structure KvStore where
  files : List GenFile
  wpos : List Nat
  current_gen : Nat
  index : List (mem.Key × IndexEntry)
  log_len : List (Nat × Nat)
  deriving DecidableEq, Repr

/-- Rust `COMPACT_THRESHOLD` from `src/store/src/kv.rs`. -/
def COMPACT_THRESHOLD : Nat := 4000

namespace KvStore

/-- Slot-level `LogWriter::write_file_entry`: the encoded entry occupies
slot `entry_pos` (a hole below `entry_pos` reads back as absent slots);
returns the pre-increment position. -/
def writeSlot (slots : List (Option file.Entry)) (p : Nat) (fe : file.Entry) :
    List (Option file.Entry) :=
  slots.take p ++ List.replicate (p - slots.length) none ++ [some fe] ++ slots.drop (p + 1)

/-- Slot-level `LogWriter::write_value`: strings are appended to the end
of the data file and replaced by `{start, len}` references. -/
def write_value (f : GenFile) : mem.Value → file.Value × GenFile
  | .String s => (.String f.data.length s.length, { f with data := f.data ++ s })
  | .Integer i => (.Integer i, f)

/-- Slot-level `LogWriter::write_entry` on generation files `f` with
writer position `wp`: write the value payloads to the data file, then
the entry to slot `wp`; returns (position, new files, new position). -/
def write_entry (f : GenFile) (wp : Nat) (e : mem.Entry) : Nat × GenFile × Nat :=
  match e with
  | .Set key value =>
      let (fkey, f1) := write_value f key
      let (fvalue, f2) := write_value f1 value
      (wp, { f2 with slots := writeSlot f2.slots wp (.Set fkey fvalue) }, wp + 1)
  | .Remove key =>
      let (fkey, f1) := write_value f key
      (wp, { f1 with slots := writeSlot f1.slots wp (.Remove fkey) }, wp + 1)

/-- Rust `KvStore::index_entry`: a `Set` binds the key to `(gen, pos)`, a
`Remove` deletes the key. -/
def index_entry (idx : List (mem.Key × IndexEntry)) (entry : mem.Entry)
    (gen pos : Nat) : List (mem.Key × IndexEntry) :=
  match entry with
  | .Set key _ => idxInsert idx key ⟨gen, pos⟩
  | .Remove key => idxRemove idx key

/-- The `for (entry, pos) in entries` loop of `KvStore::load`. -/
def replayList (idx : List (mem.Key × IndexEntry)) (es : List mem.Entry)
    (gen pos : Nat) : List (mem.Key × IndexEntry) :=
  match es with
  | [] => idx
  | e :: rest => replayList (index_entry idx e gen pos) rest gen (pos + 1)

/-- Update the association list `log_len` at generation `gen`. -/
def lenInsert (l : List (Nat × Nat)) (gen n : Nat) : List (Nat × Nat) :=
  match l with
  | [] => [(gen, n)]
  | (g, m) :: rest => if g = gen then (gen, n) :: rest else (g, m) :: lenInsert rest gen n

/-- Rust `KvStore::load`: flush (a no-op here), seek the reader to 0, read all
records, replay them into the index, record the entry count and set the
writer position after the last replayed record. -/
def load (s : KvStore) (gen : Nat) : Except Error (Nat × KvStore) :=
  match s.files.get? gen with
  | none => .error .Panic
  | some f =>
      match readAll f f.slots with
      | .error e => .error e
      | .ok es =>
          let pos := es.length
          .ok (pos,
            { s with
              index := replayList s.index es gen 0
              log_len := lenInsert s.log_len gen pos
              wpos := s.wpos.set gen pos })

/-- Rust `KvStore::open_log_file`: (re)open the file pair of `gen` and insert
fresh reader/writer handles for it.  A fresh `LogWriter` has
`entry_pos = 0`; reopening an existing generation therefore resets its
writer position.  For a brand-new generation (`gen = files.length`) the
files are created empty. -/
def open_log_file (s : KvStore) (gen : Nat) : KvStore :=
  if gen < s.files.length then
    { s with wpos := s.wpos.set gen 0 }
  else
    { s with files := s.files ++ [GenFile.empty], wpos := s.wpos ++ [0] }

/-- Rust `KvStore::compact`, main loop: read the old records one by one with
`read_file_entry()` (stopping at end-of-file or an absent slot).  A
`Set` whose key the index maps to exactly `(gen, reader_pos)` is
resolved and rewritten to the temporary writer, otherwise it is dropped
(a `Set` whose key is absent from the index is silently skipped); a
`Remove` whose key is absent from the index is rewritten, otherwise
dropped.  Returns `(reader_pos, entries_deleted, temp writer state)`. -/
def compactLoop (f : GenFile) (idx : List (mem.Key × IndexEntry)) (gen : Nat) :
    List (Option file.Entry) → Nat → Nat → GenFile → Nat →
    Except Error (Nat × Nat × GenFile × Nat)
  | [], reader_pos, deleted, temp, twp => .ok (reader_pos, deleted, temp, twp)
  | none :: _, reader_pos, deleted, temp, twp => .ok (reader_pos, deleted, temp, twp)
  | some fe :: rest, reader_pos, deleted, temp, twp =>
      match fe with
      | .Set key value =>
          match lookup_file_value f key with
          | .error e => .error e
          | .ok mem_key =>
              match idxLookup idx mem_key with
              | some ie =>
                  if ie.gen = gen ∧ ie.location = reader_pos then
                    match lookup_file_value f value with
                    | .error e => .error e
                    | .ok mem_value =>
                        let (_, temp1, twp1) := write_entry temp twp (.Set mem_key mem_value)
                        compactLoop f idx gen rest (reader_pos + 1) deleted temp1 twp1
                  else
                    compactLoop f idx gen rest (reader_pos + 1) (deleted + 1) temp twp
              | none => compactLoop f idx gen rest (reader_pos + 1) deleted temp twp
      | .Remove key =>
          match lookup_file_value f key with
          | .error e => .error e
          | .ok mem_key =>
              if idxContains idx mem_key then
                compactLoop f idx gen rest (reader_pos + 1) (deleted + 1) temp twp
              else
                let (_, temp1, twp1) := write_entry temp twp (.Remove mem_key)
                compactLoop f idx gen rest (reader_pos + 1) deleted temp1 twp1

/-- Rust `KvStore::compact`: open a fresh temporary writer pair, flush the
live writer (a no-op here), run the compaction loop, flush the temporary
writer, rename the temporary pair over the live one and reopen the
handles (`open_log_file`, which resets the generation's writer position
to 0).  Returns `reader_pos`, the number of records read from the old
file.  The index is not touched. -/
def compact (s : KvStore) (gen : Nat) : Except Error Nat × KvStore :=
  match s.files.get? gen with
  | none => (.error .Panic, s)
  | some f =>
      match compactLoop f s.index gen f.slots 0 0 GenFile.empty 0 with
      | .error e => (.error e, s)
      | .ok (reader_pos, _, temp, _) =>
          (.ok reader_pos, open_log_file { s with files := s.files.set gen temp } gen)

/-- The `for gen in 0..self.current_gen + 1` loop of
`KvStore::compact_all`, threading `new_len` through the iterations. -/
def compactGens (s : KvStore) : List Nat → Nat → Except Error Nat × KvStore
  | [], new_len => (.ok new_len, s)
  | g :: rest, _ =>
      match compact s g with
      | (.ok n, s1) => compactGens s1 rest n
      | (.error e, s1) => (.error e, s1)

/-- Rust `KvStore::compact_all`: compact every generation in order; if the
last `compact` (of the current generation) returned more than
`COMPACT_THRESHOLD`, advance `current_gen` and open a fresh empty
generation. -/
def compact_all (s : KvStore) : Except Error Unit × KvStore :=
  match compactGens s (List.range (s.current_gen + 1)) 0 with
  | (.error e, s1) => (.error e, s1)
  | (.ok new_len, s1) =>
      if new_len > COMPACT_THRESHOLD then
        (.ok (),
          open_log_file { s1 with current_gen := s1.current_gen + 1 } (s1.current_gen + 1))
      else
        (.ok (), s1)

/-- Rust `KvStore::push`: write the entry through the generation's writer,
index it at the returned position, and trigger a full compaction if the
position exceeds `COMPACT_THRESHOLD`. -/
def push (s : KvStore) (gen : Nat) (entry : mem.Entry) : Except Error Nat × KvStore :=
  match s.files.get? gen, s.wpos.get? gen with
  | some f, some wp =>
      let (pos, f1, wp1) := write_entry f wp entry
      let s1 := { s with
        files := s.files.set gen f1
        wpos := s.wpos.set gen wp1
        index := index_entry s.index entry gen pos }
      if pos > COMPACT_THRESHOLD then
        match compact_all s1 with
        | (.ok _, s2) => (.ok pos, s2)
        | (.error e, s2) => (.error e, s2)
      else
        (.ok pos, s1)
  | _, _ => (.error .Panic, s)

/-- Rust `KvsEngine::set for KvStore`: append `Set{String key, String value}`
to the current generation. -/
def set (s : KvStore) (key value : List Char) : Except Error Unit × KvStore :=
  let entry := mem.Entry.Set (.String key) (.String value)
  match push s s.current_gen entry with
  | (.ok _, s1) => (.ok (), s1)
  | (.error e, s1) => (.error e, s1)

/-- Rust `KvsEngine::get for KvStore`: flush the current generation's writer
(a no-op here), look the key up in the index, read the entry at the
indexed location, and return its value if it is a `Set`; a missing key,
or an indexed slot that does not hold a `Set`, yields `Ok(None)` (the
latter only logs a warning). -/
def get (s : KvStore) (key : List Char) : Except Error (Option (List Char)) × KvStore :=
  let key1 : mem.Key := .String key
  match idxLookup s.index key1 with
  | some ⟨gen, location⟩ =>
      match s.files.get? gen with
      | none => (.error .Panic, s)
      | some f =>
          match entry_at f location with
          | .error e => (.error e, s)
          | .ok (some (mem.Entry.Set _ value)) => (.ok (some (displayValue value)), s)
          | .ok _ => (.ok none, s)
  | none => (.ok none, s)

/-- Rust `KvsEngine::remove for KvStore`: a key absent from the index yields
`Err(NonExistentKey)` without writing; otherwise a `Remove{key}` record
is appended to the current generation. -/
def remove (s : KvStore) (key : List Char) : Except Error Unit × KvStore :=
  let key1 : mem.Key := .String key
  if idxContains s.index key1 then
    match push s s.current_gen (.Remove key1) with
    | (.ok _, s1) => (.ok (), s1)
    | (.error e, s1) => (.error e, s1)
  else
    (.error (.NonExistentKey key1), s)

/-- The `for gen in 0..kvs.current_gen + 1` loop of `KvStore::open`:
open each generation's file pair (taking its on-disk contents from the
directory, creating empty files when missing) and replay it. -/
def openGens (s : KvStore) (disk : List GenFile) : List Nat → Except Error KvStore
  | [] => .ok s
  | g :: rest =>
      let f := (disk.get? g).getD GenFile.empty
      let s1 := { s with files := s.files ++ [f], wpos := s.wpos ++ [0] }
      match load s1 g with
      | .error e => .error e
      | .ok (_, s2) => openGens s2 disk rest

/-- Rust `KvStore::open`: the directory is modelled as the list of file pairs
for generations `0 ..= m` (the numeric file names); `current_gen` is the
maximum generation present, or 0 for an empty directory.  Each
generation is opened and replayed in ascending order. -/
def openStore (disk : List GenFile) : Except Error KvStore :=
  let current_gen := disk.length - 1
  let s : KvStore :=
    { files := [], wpos := [], current_gen := current_gen, index := [], log_len := [] }
  openGens s disk (List.range (current_gen + 1))

/-- Rust `impl Drop for KvStore`: flush all writers (a no-op here); the files
left on disk are the engine's files. -/
def close (s : KvStore) : List GenFile := s.files

end KvStore

/-! ## Specification vocabulary

Decidable formalisations of the spec's notions: invariant I1, and the
glossary's "live record", used to state P6. -/

/-- The resolved record stored at `(gen, pos)`, if any. -/
def recordAt (s : KvStore) (gen pos : Nat) : Option file.Entry :=
  match s.files.get? gen with
  | none => none
  | some f => (f.slots.get? pos).getD none

/-- The resolved key of the record at `(gen, pos)`, if it resolves. -/
def keyAt (s : KvStore) (gen pos : Nat) : Option mem.Key :=
  match s.files.get? gen with
  | none => none
  | some f =>
      match (f.slots.get? pos).getD none with
      | none => none
      | some (.Set kref _) => (lookup_file_value f kref).toOption
      | some (.Remove kref) => (lookup_file_value f kref).toOption

/-- Spec I1, for one index binding: position `(gen, pos)` references a
slot whose decoded record is `Set {key, _}` with `key` matching `k`. -/
def slotIsSetFor (s : KvStore) (k : mem.Key) (gen pos : Nat) : Bool :=
  match s.files.get? gen with
  | none => false
  | some f =>
      match (f.slots.get? pos).getD none with
      | some (.Set kref _) =>
          match lookup_file_value f kref with
          | .ok k1 => k1 = k
          | .error _ => false
      | _ => false

/-- Spec invariant I1 as a decidable predicate on the engine state. -/
def I1holds (s : KvStore) : Bool :=
  s.index.all fun p => slotIsSetFor s p.1 p.2.gen p.2.location

/-- All `(generation, position)` slots of the engine's files. -/
def allPositions (s : KvStore) : List (Nat × Nat) :=
  ((List.range s.files.length).map fun g =>
    (List.range (((s.files.get? g).getD GenFile.empty).slots.length)).map fun p => (g, p)).flatten

/-- Whether `(g1, p1)` is strictly later in log order than `(g, p)`
(generations are replayed in ascending order, positions within one
generation in ascending order). -/
def lexLater (g p g1 p1 : Nat) : Bool := g < g1 ∨ (g = g1 ∧ p < p1)

/-- Glossary "live record": a `Set` is live when the index maps its key
to exactly this `(generation, position)`; a `Remove` is live when it is
the latest word for its key (no later record has the same key). -/
def liveAt (s : KvStore) (gen pos : Nat) : Bool :=
  match recordAt s gen pos with
  | some (.Set _ _) =>
      match keyAt s gen pos with
      | some k => idxLookup s.index k = some ⟨gen, pos⟩
      | none => false
  | some (.Remove _) =>
      match keyAt s gen pos with
      | some k =>
          !(allPositions s).any fun gp =>
            lexLater gen pos gp.1 gp.2 && keyAt s gp.1 gp.2 = some k
      | none => false
  | none => false

/-- P6's left-hand side: the number of live entries in generation `g`. -/
def liveEntryCount (s : KvStore) (g : Nat) : Nat :=
  ((List.range (((s.files.get? g).getD GenFile.empty).slots.length)).filter
    fun p => liveAt s g p).length

/-- The keys of all records of the store (with duplicates removed). -/
def allKeys (s : KvStore) : List mem.Key :=
  ((allPositions s).filterMap fun gp => keyAt s gp.1 gp.2).dedup

/-- The latest (in log order) live record holding key `k`, if any. -/
def latestLiveOf (s : KvStore) (k : mem.Key) : Option (Nat × Nat) :=
  ((allPositions s).filter fun gp =>
      liveAt s gp.1 gp.2 && keyAt s gp.1 gp.2 = some k).foldl
    (fun acc gp =>
      match acc with
      | none => some gp
      | some gp0 => if lexLater gp0.1 gp0.2 gp.1 gp.2 then some gp else some gp0)
    none

/-- P6's right-hand side: the number of keys whose latest live record
lies in generation `g`. -/
def keysWithLatestLiveIn (s : KvStore) (g : Nat) : Nat :=
  ((allKeys s).filter fun k =>
    match latestLiveOf s k with
    | some gp => gp.1 = g
    | none => false).length

/-- The number of records read sequentially from a log file before the
first absent slot (what `compact`'s `reader_pos` counts, and what `load`
replays). -/
def readCount : List (Option file.Entry) → Nat
  | some _ :: rest => readCount rest + 1
  | _ => 0

/-! ## Concrete states used by witnesses and counterexamples -/

/-- The engine state produced by `open` on an empty directory. -/
def sOpen0 : KvStore :=
  { files := [GenFile.empty], wpos := [0], current_gen := 0, index := [], log_len := [(0, 0)] }

/-- The state after `open(empty); set("a","1"); set("a","2")`. -/
def sEx2 : KvStore :=
  (KvStore.set (KvStore.set sOpen0 ['a'] ['1']).2 ['a'] ['2']).2

/-- A store whose index binding for key `a` points at a slot holding a
`Set` for the different key `b` (with value `w`): the shape of state the
consistency-error sentence of the spec is about. -/
def sBadIdx : KvStore :=
  { files := [{ slots := [some (.Set (.String 0 1) (.String 1 1))], data := ['b', 'w'] }]
    wpos := [1]
    current_gen := 0
    index := [(.String ['a'], ⟨0, 0⟩)]
    log_len := [(0, 1)] }

/-- A writer whose entry position has reached the per-generation cap. -/
def wAtCap : LogWriter :=
  { entryFile := [], entry_pos := file.MAX_ENTRIES_PER_FILE, dataFile := [] }

/-! ## A family of large states that cross the compaction threshold

`n` records `Set("a","v")` written in sequence: record `i` sits in slot
`i` and references the data bytes `[2i, 2i+2)`.  These states are what
`open` on a directory with `n` prior writes produces, and what `n`
`set("a","v")` calls on a fresh store produce; they drive the
compaction-triggering executions for P1 and P4. -/

/-- Slot `i` of the uniform `Set("a","v")` log: key at data offset `2i`,
value at `2i + 1`, both one byte long. -/
def mkSlot (i : Nat) : Option file.Entry :=
  some (.Set (.String (2 * i) 1) (.String (2 * i + 1) 1))

/-- Slots `i, i+1, ..., i+m-1` of the uniform log. -/
def slotsFrom (i : Nat) : Nat → List (Option file.Entry)
  | 0 => []
  | m + 1 => mkSlot i :: slotsFrom (i + 1) m

/-- The data file after `n` writes of `("a","v")`: `n` copies of `av`. -/
def dataN : Nat → List Char
  | 0 => []
  | n + 1 => dataN n ++ ['a', 'v']

/-- The resolved form of every record of the uniform log. -/
def memAV : mem.Entry := .Set (.String ['a']) (.String ['v'])

/-- A directory holding one generation with `n` uniform records. -/
def mkDisk (n : Nat) : List GenFile := [⟨slotsFrom 0 n, dataN n⟩]

/-- The engine state holding `n ≥ 1` uniform records in generation 0
with writer position `n` and recorded replay length `L` (`L = n` right
after `open`; `L = 0` when the records were pushed after opening an
empty directory, since `push` never updates `log_len`). -/
def bulkState (n L : Nat) : KvStore :=
  { files := [⟨slotsFrom 0 n, dataN n⟩]
    wpos := [n]
    current_gen := 0
    index := [(.String ['a'], ⟨0, n - 1⟩)]
    log_len := [(0, L)] }

/-- The state after `set("a","v")` on `bulkState 4001 L`: the write
lands at position 4001 and triggers `compact_all`; generation 0 is
rewritten to the single live record (at position 0), the index binding
still points at position 4001, and a fresh generation 1 is opened. -/
def postCompactState (L : Nat) : KvStore :=
  { files := [⟨slotsFrom 0 1, dataN 1⟩, GenFile.empty]
    wpos := [0, 0]
    current_gen := 1
    index := [(.String ['a'], ⟨0, 4001⟩)]
    log_len := [(0, L)] }

/-- The state a fresh `open` produces from the files `postCompactState`
leaves behind: the index is rebuilt from the actual file contents. -/
def reopenedState : KvStore :=
  { files := [⟨slotsFrom 0 1, dataN 1⟩, GenFile.empty]
    wpos := [1, 0]
    current_gen := 1
    index := [(.String ['a'], ⟨0, 0⟩)]
    log_len := [(0, 1), (1, 0)] }

/-- The engine state reached inside `push` right after the write at
position 4001 and the index update, just before `compact_all` runs. -/
def bulkAfterSet (L : Nat) : KvStore :=
  { files := [⟨slotsFrom 0 4002, dataN 4002⟩]
    wpos := [4002]
    current_gen := 0
    index := [(.String ['a'], ⟨0, 4001⟩)]
    log_len := [(0, L)] }

/-- The state `bulkAfterSet` after `compact(0)`: generation 0 rewritten to its
single live record; index and `current_gen` untouched. -/
def compactedState (L : Nat) : KvStore :=
  { files := [⟨slotsFrom 0 1, dataN 1⟩]
    wpos := [0]
    current_gen := 0
    index := [(.String ['a'], ⟨0, 4001⟩)]
    log_len := [(0, L)] }

/-- The engine state during `open(mkDisk n)`, right before `load 0`. -/
def preOpenBulk (n : Nat) : KvStore :=
  { files := [⟨slotsFrom 0 n, dataN n⟩]
    wpos := [0]
    current_gen := 0
    index := []
    log_len := [] }

/-- The store after `n` successive `set("a","v")` calls on a freshly opened store. -/
def iterSets : Nat → KvStore
  | 0 => sOpen0
  | n + 1 => (KvStore.set (iterSets n) ['a'] ['v']).2

/-- Whether an engine call returned `Ok`. -/
def exceptOk {α : Type} : Except Error α → Bool
  | .ok _ => true
  | .error _ => false

/-- Whether every one of the first `n` `set` calls of `iterSets`
returned `Ok`. -/
def iterSetsOk : Nat → Bool
  | 0 => true
  | n + 1 => iterSetsOk n && exceptOk (KvStore.set (iterSets n) ['a'] ['v']).1

/-! # Theorems -/

/-! ## Codec size facts -/

theorem toLEBytes_length (k : Nat) : ∀ n, (toLEBytes k n).length = k := by
  induction k with
  | zero => intro n; rfl
  | succ k ih => intro n; simp [toLEBytes, ih]

theorem serializeValue_length (v : file.Value) : (serializeValue v).length = 20 := by
  cases v <;>
    simp [serializeValue, u32le, u64le, i128le, toLEBytes_length]

theorem serializeOptEntry_some_length (e : file.Entry) :
    (serializeOptEntry (some e)).length = 45 ∨ (serializeOptEntry (some e)).length = 25 := by
  cases e with
  | Set key value =>
      left
      simp [serializeOptEntry, serializeEntry, u32le, toLEBytes_length, serializeValue_length]
  | Remove key =>
      right
      simp [serializeOptEntry, serializeEntry, u32le, toLEBytes_length, serializeValue_length]

/-- C10: every serialized `Some(file::Entry)` fits in a 64-byte slot
(a `Set` encodes to 45 bytes, a `Remove` to 25), so the
`bytes.resize(SERIALIZED_ENTRY_SIZE, 0)` in `write_file_entry` only
appends zero padding and never truncates the encoded record. -/
theorem C10_serialized_entry_fits_slot (e : file.Entry) :
    (serializeOptEntry (some e)).length ≤ file.SERIALIZED_ENTRY_SIZE ∧
    vecResize (serializeOptEntry (some e)) file.SERIALIZED_ENTRY_SIZE =
      serializeOptEntry (some e) ++
        List.replicate
          (file.SERIALIZED_ENTRY_SIZE - (serializeOptEntry (some e)).length) 0 := by
  have hle : (serializeOptEntry (some e)).length ≤ file.SERIALIZED_ENTRY_SIZE := by
    rcases serializeOptEntry_some_length e with h | h <;>
      simp [h, file.SERIALIZED_ENTRY_SIZE]
  exact ⟨hle, by rw [vecResize, List.take_of_length_le hle]⟩

/-! ## Writer failure behaviour -/

theorem write_value_entry_pos (w : LogWriter) (v : mem.Value) (o : WOutcome) :
    ((LogWriter.write_value w v o).2).entry_pos = w.entry_pos := by
  cases v <;> cases o <;> rfl

/-- C8: if `write_file_entry` (or `write_entry`) fails with an I/O
error, the writer's `entry_pos` counter is unchanged, so the next
successful write targets the same slot. -/
theorem C8_failed_write_keeps_entry_pos :
    (∀ (w : LogWriter) (e : file.Entry) (o : WOutcome) (er : LfError),
        (LogWriter.write_file_entry w e o).1 = .error er →
        ((LogWriter.write_file_entry w e o).2).entry_pos = w.entry_pos) ∧
    (∀ (w : LogWriter) (e : mem.Entry) (o1 o2 o3 : WOutcome) (er : LfError),
        (LogWriter.write_entry w e o1 o2 o3).1 = .error er →
        ((LogWriter.write_entry w e o1 o2 o3).2).entry_pos = w.entry_pos) := by
  have hfe : ∀ (w : LogWriter) (e : file.Entry) (o : WOutcome) (er : LfError),
      (LogWriter.write_file_entry w e o).1 = .error er →
      ((LogWriter.write_file_entry w e o).2).entry_pos = w.entry_pos := by
    intro w e o er h
    cases o with
    | success => simp [LogWriter.write_file_entry] at h
    | fail written => rfl
  refine ⟨hfe, ?_⟩
  intro w e o1 o2 o3 er h
  cases e with
  | Set key value =>
      rcases h1 : LogWriter.write_value w key o1 with ⟨r1, w1⟩
      have hp1 : w1.entry_pos = w.entry_pos := by
        have := write_value_entry_pos w key o1; rw [h1] at this; exact this
      cases r1 with
      | error e1 =>
          simp [LogWriter.write_entry, h1] at h ⊢
          exact hp1
      | ok fkey =>
          rcases h2 : LogWriter.write_value w1 value o2 with ⟨r2, w2⟩
          have hp2 : w2.entry_pos = w1.entry_pos := by
            have := write_value_entry_pos w1 value o2; rw [h2] at this; exact this
          cases r2 with
          | error e2 =>
              simp [LogWriter.write_entry, h1, h2] at h ⊢
              rw [hp2, hp1]
          | ok fvalue =>
              simp [LogWriter.write_entry, h1, h2] at h ⊢
              rw [hfe w2 (.Set fkey fvalue) o3 er h, hp2, hp1]
  | Remove key =>
      rcases h1 : LogWriter.write_value w key o1 with ⟨r1, w1⟩
      have hp1 : w1.entry_pos = w.entry_pos := by
        have := write_value_entry_pos w key o1; rw [h1] at this; exact this
      cases r1 with
      | error e1 =>
          simp [LogWriter.write_entry, h1] at h ⊢
          exact hp1
      | ok fkey =>
          simp [LogWriter.write_entry, h1] at h ⊢
          rw [hfe w1 (.Remove fkey) o3 er h, hp1]

/-- C8 witness: a concrete failing write leaves `entry_pos` at 0. -/
theorem C8_failed_write_keeps_entry_pos_witness :
    ((LogWriter.write_file_entry ⟨[], 0, []⟩ (.Remove (.Integer 0)) (.fail 0)).2).entry_pos = 0 :=
  C8_failed_write_keeps_entry_pos.1 ⟨[], 0, []⟩ (.Remove (.Integer 0)) (.fail 0) .IoError rfl

/-- C9: the claim says a write at the per-generation cap must fail, but
`write_file_entry` performs no cap check: with `entry_pos` already at
`MAX_ENTRIES_PER_FILE` the write succeeds, returns the position and
increments the counter (evidence for the code bug: the documented
`FileOutOfSpaceError` is never produced by the writer). -/
theorem C9_write_past_cap_succeeds :
    wAtCap.entry_pos = file.MAX_ENTRIES_PER_FILE ∧
    (LogWriter.write_file_entry wAtCap (.Remove (.Integer 0)) .success).1 =
      .ok file.MAX_ENTRIES_PER_FILE ∧
    ((LogWriter.write_file_entry wAtCap (.Remove (.Integer 0)) .success).2).entry_pos =
      file.MAX_ENTRIES_PER_FILE + 1 :=
  ⟨rfl, rfl, rfl⟩

/-! ## Engine error behaviour -/

/-- C7: removing a key that is absent from the index returns
`Err(NonExistentKey)` and leaves the whole engine state — log files,
writer positions and index — unchanged. -/
theorem C7_remove_missing_key (s : KvStore) (key : List Char)
    (h : idxContains s.index (.String key) = false) :
    KvStore.remove s key = (.error (.NonExistentKey (.String key)), s) := by
  unfold KvStore.remove
  simp [h]

/-- C7 witness: removing `z` from a freshly opened store. -/
theorem C7_remove_missing_key_witness :
    KvStore.remove sOpen0 ['z'] = (.error (.NonExistentKey (.String ['z'])), sOpen0) :=
  C7_remove_missing_key sOpen0 ['z'] (by decide)

/-- C4 counterexample: in `sBadIdx` the index maps key `a` to slot
`(0,0)`, whose record is a `Set` for the different key `b`; `get("a")`
does not return an error — it succeeds and returns `b`'s value `w`. -/
theorem C4_cex :
    idxLookup sBadIdx.index (.String ['a']) = some ⟨0, 0⟩ ∧
    slotIsSetFor sBadIdx (.String ['a']) 0 0 = false ∧
    (KvStore.get sBadIdx ['a']).1 = .ok (some ['w']) :=
  ⟨by decide, by decide, rfl⟩

/-- C4 (amended): when the index maps key `k` to a location whose
record resolves but is not a `Set` with key `k`, `get(k)` does not
surface an error: it returns `Ok(None)` when the record is not a `Set`
(only logging a warning), and `Ok(Some(v))` — the value of the foreign
`Set` — when it is a `Set` for a different key. -/
theorem C4_mismatched_slot_no_error (s : KvStore) (key : List Char) (gen location : Nat)
    (f : GenFile) (r : Option mem.Entry)
    (hidx : idxLookup s.index (.String key) = some ⟨gen, location⟩)
    (hf : s.files.get? gen = some f)
    (hr : entry_at f location = .ok r)
    (hmis : ∀ v, r ≠ some (.Set (.String key) v)) :
    (KvStore.get s key).1 =
      .ok (match r with
           | some (mem.Entry.Set _ value) => some (displayValue value)
           | _ => none) := by
  unfold KvStore.get
  simp only [hidx, hf, hr]
  match r with
  | none => rfl
  | some (mem.Entry.Set k v) => rfl
  | some (mem.Entry.Remove k) => rfl

/-- C4 witness: the amended behaviour at the concrete state `sBadIdx`. -/
theorem C4_mismatched_slot_no_error_witness :
    (KvStore.get sBadIdx ['a']).1 = .ok (some ['w']) := by
  have h := C4_mismatched_slot_no_error sBadIdx ['a'] 0 0
    { slots := [some (.Set (.String 0 1) (.String 1 1))], data := ['b', 'w'] }
    (some (.Set (.String ['b']) (.String ['w'])))
    (by decide) rfl rfl
    (by
      intro v hv
      injection hv with hv1
      injection hv1 with hk hval
      exact absurd hk (by decide))
  simpa using h

/-- C2: after `compact(0)` on the reachable state `sEx2`
(`set("a","1"); set("a","2")` from a fresh store) the handles are
reopened but the index is not rebuilt: `compact` succeeds, the
compacted file holds one slot, yet the index still maps `a` to
position 1, so invariant I1 fails in the post-compaction state. -/
theorem C2_compact_leaves_index_stale :
    KvStore.openStore [] = .ok sOpen0 ∧
    (KvStore.set sOpen0 ['a'] ['1']).1 = .ok () ∧
    (KvStore.set (KvStore.set sOpen0 ['a'] ['1']).2 ['a'] ['2']).1 = .ok () ∧
    (KvStore.compact sEx2 0).1 = .ok 2 ∧
    idxLookup (KvStore.compact sEx2 0).2.index (.String ['a']) = some ⟨0, 1⟩ ∧
    ((KvStore.compact sEx2 0).2.files.get? 0).map (fun f => f.slots.length) = some 1 ∧
    I1holds sEx2 = true ∧
    I1holds (KvStore.compact sEx2 0).2 = false :=
  ⟨rfl, rfl, rfl, rfl, by decide, rfl, by decide, by decide⟩

/-- C6: on the reachable state `sEx2` exactly one key (`a`) has its
latest live record in generation 0, but after `compact(0)` the
compacted generation contains zero live entries (its single record sits
at position 0 while the never-rebuilt index points at position 1), so
the claimed equality fails. -/
theorem C6_live_count_mismatch :
    (KvStore.set sOpen0 ['a'] ['1']).1 = .ok () ∧
    (KvStore.set (KvStore.set sOpen0 ['a'] ['1']).2 ['a'] ['2']).1 = .ok () ∧
    keysWithLatestLiveIn sEx2 0 = 1 ∧
    exceptOk (KvStore.compact sEx2 0).1 = true ∧
    liveEntryCount (KvStore.compact sEx2 0).2 0 = 0 ∧
    (1 : Nat) ≠ 0 :=
  ⟨rfl, rfl, by decide, rfl, by decide, by decide⟩

/-- C5 counterexample: `compact(0)` on `sEx2` returns 2 — the number of
records read from the old file — although the compacted file pair holds
a single entry after rewriting. -/
theorem C5_cex :
    (KvStore.compact sEx2 0).1 = .ok 2 ∧
    ((KvStore.compact sEx2 0).2.files.get? 0).map (fun f => f.slots.length) = some 1 ∧
    (2 : Nat) ≠ 1 :=
  ⟨rfl, rfl, by decide⟩

/-! ## What `compact` returns, in general -/

theorem compactLoop_ok_pos (f : GenFile) (idx : List (mem.Key × IndexEntry)) (gen : Nat) :
    ∀ (slots : List (Option file.Entry)) (rp d twp : Nat) (temp : GenFile)
      (out : Nat × Nat × GenFile × Nat),
      KvStore.compactLoop f idx gen slots rp d temp twp = .ok out →
      out.1 = rp + readCount slots := by
  intro slots
  induction slots with
  | nil =>
      intro rp d twp temp out h
      simp only [KvStore.compactLoop] at h
      cases h
      simp [readCount]
  | cons hd rest ih =>
      intro rp d twp temp out h
      cases hd with
      | none =>
          simp only [KvStore.compactLoop] at h
          cases h
          simp [readCount]
      | some fe =>
          cases fe with
          | Set key value =>
              simp only [KvStore.compactLoop] at h
              split at h
              · cases h
              · split at h
                · split at h
                  · split at h
                    · cases h
                    · have := ih _ _ _ _ out h
                      simp only [readCount, this]; omega
                  · have := ih _ _ _ _ out h
                    simp only [readCount, this]; omega
                · have := ih _ _ _ _ out h
                  simp only [readCount, this]; omega
          | Remove key =>
              simp only [KvStore.compactLoop] at h
              split at h
              · cases h
              · split at h
                · have := ih _ _ _ _ out h
                  simp only [readCount, this]; omega
                · have := ih _ _ _ _ out h
                  simp only [readCount, this]; omega

theorem open_log_file_current (s : KvStore) (gen : Nat) :
    (KvStore.open_log_file s gen).current_gen = s.current_gen := by
  unfold KvStore.open_log_file
  split <;> rfl

theorem open_log_file_index (s : KvStore) (gen : Nat) :
    (KvStore.open_log_file s gen).index = s.index := by
  unfold KvStore.open_log_file
  split <;> rfl

/-- Preservation: `compact` on generation `gen` never touches `current_gen`, the
index, or the files of other generations. -/
theorem compact_preserves (s : KvStore) (gen : Nat) (r : Except Error Nat) (s1 : KvStore)
    (h : KvStore.compact s gen = (r, s1)) :
    s1.current_gen = s.current_gen ∧ s1.index = s.index ∧
    ∀ g, g ≠ gen → s1.files.get? g = s.files.get? g := by
  unfold KvStore.compact at h
  split at h
  · cases h
    exact ⟨rfl, rfl, fun g _ => rfl⟩
  · rename_i f hf
    split at h
    · cases h
      exact ⟨rfl, rfl, fun g _ => rfl⟩
    · rename_i reader_pos d1 temp d2 hloop
      have hlen : gen < s.files.length := by
        rcases List.get?_eq_some.mp hf with ⟨hl, _⟩
        exact hl
      have hlen2 : gen < (s.files.set gen temp).length := by
        simpa [List.length_set] using hlen
      rw [KvStore.open_log_file, if_pos hlen2] at h
      cases h
      refine ⟨rfl, rfl, fun g hg => ?_⟩
      exact List.get?_set_ne temp s.files (Ne.symm hg)

theorem compactGens_preserves (s : KvStore) (l : List Nat) (acc : Nat)
    (r : Except Error Nat) (s1 : KvStore)
    (h : KvStore.compactGens s l acc = (r, s1)) :
    s1.current_gen = s.current_gen ∧ s1.index = s.index ∧
    ∀ g, g ∉ l → s1.files.get? g = s.files.get? g := by
  induction l generalizing s acc r s1 with
  | nil =>
      simp only [KvStore.compactGens] at h
      cases h
      exact ⟨rfl, rfl, fun g _ => rfl⟩
  | cons hd tl ih =>
      simp only [KvStore.compactGens] at h
      cases hc : KvStore.compact s hd with
      | mk rc sc =>
          rw [hc] at h
          have hpres := compact_preserves s hd rc sc hc
          cases rc with
          | ok n =>
              have := ih sc n r s1 h
              refine ⟨this.1.trans hpres.1, this.2.1.trans hpres.2.1, fun g hg => ?_⟩
              have hg1 : g ∉ tl := fun hmem => hg (List.mem_cons_of_mem hd hmem)
              have hg2 : g ≠ hd := fun he => hg (he ▸ List.mem_cons_self hd tl)
              exact (this.2.2 g hg1).trans (hpres.2.2 g hg2)
          | error e =>
              cases h
              exact ⟨hpres.1, hpres.2.1, fun g hg =>
                hpres.2.2 g (fun he => hg (he ▸ List.mem_cons_self hd tl))⟩

theorem compactGens_append (s : KvStore) (l1 l2 : List Nat) (acc : Nat) :
    KvStore.compactGens s (l1 ++ l2) acc =
      match KvStore.compactGens s l1 acc with
      | (.ok n, s1) => KvStore.compactGens s1 l2 n
      | (.error e, s1) => (.error e, s1) := by
  induction l1 generalizing s acc with
  | nil => simp [KvStore.compactGens]
  | cons hd tl ih =>
      simp only [List.cons_append, KvStore.compactGens]
      cases KvStore.compact s hd with
      | mk rc sc =>
          cases rc with
          | ok n => exact ih sc n
          | error e => rfl

/-- C5 (amended): a successful `compact(G)` returns the number of
records read from the pre-compaction file of `G` (not the entry count
of the rewritten file); consequently `compact_all` advances
`current_gen` and opens a fresh generation exactly when that
pre-compaction record count of the current generation exceeds the
threshold. -/
theorem C5_compact_returns_old_length :
    (∀ (s : KvStore) (gen : Nat) (f : GenFile) (n : Nat) (s1 : KvStore),
        s.files.get? gen = some f →
        KvStore.compact s gen = (.ok n, s1) →
        n = readCount f.slots) ∧
    (∀ (s : KvStore) (f : GenFile) (s1 : KvStore),
        s.files.get? s.current_gen = some f →
        KvStore.compact_all s = (.ok (), s1) →
        ((s1.current_gen = s.current_gen + 1) ↔ COMPACT_THRESHOLD < readCount f.slots)) := by
  have hcompact : ∀ (s : KvStore) (gen : Nat) (f : GenFile) (n : Nat) (s1 : KvStore),
      s.files.get? gen = some f →
      KvStore.compact s gen = (.ok n, s1) →
      n = readCount f.slots := by
    intro s gen f n s1 hf h
    unfold KvStore.compact at h
    split at h
    · rename_i hnone
      rw [hnone] at hf
      cases hf
    · rename_i f1 hsome
      rw [hsome] at hf
      injection hf with hf
      subst hf
      split at h
      · cases h
      · rename_i reader_pos d1 temp d2 hloop
        have hpos := compactLoop_ok_pos _ s.index gen _ 0 0 0 GenFile.empty _ hloop
        injection h with h1 h2
        injection h1 with h1
        subst h1
        simpa using hpos
  refine ⟨hcompact, ?_⟩
  intro s f s1 hf h
  unfold KvStore.compact_all at h
  rw [List.range_succ] at h
  rw [compactGens_append] at h
  cases hg : KvStore.compactGens s (List.range s.current_gen) 0 with
  | mk rg sg =>
      rw [hg] at h
      cases rg with
      | error e => simp at h
      | ok k =>
          simp only [KvStore.compactGens] at h
          have hpres := compactGens_preserves s (List.range s.current_gen) 0 (.ok k) sg hg
          have hfg : sg.files.get? s.current_gen = some f := by
            rw [hpres.2.2 s.current_gen (by simp), hf]
          cases hc : KvStore.compact sg s.current_gen with
          | mk rc sc =>
              rw [hc] at h
              have hcpres := compact_preserves sg s.current_gen rc sc hc
              cases rc with
              | error e => simp at h
              | ok n =>
                  simp only [KvStore.compactGens] at h
                  have hn : n = readCount f.slots := hcompact sg s.current_gen f n sc hfg hc
                  have hcur : sc.current_gen = s.current_gen := hcpres.1.trans hpres.1
                  by_cases hgt : n > COMPACT_THRESHOLD
                  · rw [if_pos hgt] at h
                    have hs1 : s1.current_gen = sc.current_gen + 1 := by
                      have h2 := congrArg (fun p => p.2.current_gen) h
                      simp only [open_log_file_current] at h2
                      exact h2.symm
                    constructor
                    · intro _; omega
                    · intro _; omega
                  · rw [if_neg hgt] at h
                    have hs1 : s1.current_gen = sc.current_gen := by
                      have h2 := congrArg (fun p => p.2.current_gen) h
                      exact h2.symm
                    constructor
                    · intro hadv; omega
                    · intro hlt; omega

/-- C5 witness: the amended statement applied at the concrete states
`sEx2` (for the return value of `compact`) and `sOpen0` (for the
`compact_all` advancement condition). -/
theorem C5_compact_returns_old_length_witness :
    (2 = readCount ((sEx2.files.get? 0).getD GenFile.empty).slots) ∧
    (((KvStore.compact_all sOpen0).2.current_gen = sOpen0.current_gen + 1) ↔
      COMPACT_THRESHOLD < readCount ((sOpen0.files.get? 0).getD GenFile.empty).slots) := by
  constructor
  · exact C5_compact_returns_old_length.1 sEx2 0
      ((sEx2.files.get? 0).getD GenFile.empty) 2 (KvStore.compact sEx2 0).2 rfl rfl
  · exact C5_compact_returns_old_length.2 sOpen0
      ((sOpen0.files.get? 0).getD GenFile.empty) (KvStore.compact_all sOpen0).2 rfl rfl

/-! ## The uniform `n`-record log: data and slot facts -/

theorem dataN_length (n : Nat) : (dataN n).length = 2 * n := by
  induction n with
  | zero => rfl
  | succ n ih => simp [dataN, ih]; omega

theorem dataN_add (i j : Nat) : dataN (i + j) = dataN i ++ dataN j := by
  induction j with
  | zero => simp [dataN]
  | succ j ih =>
      have : i + (j + 1) = (i + j) + 1 := by omega
      rw [this, dataN, ih, dataN, List.append_assoc]

theorem dataN_drop (i n : Nat) (h : i < n) :
    (dataN n).drop (2 * i) = 'a' :: 'v' :: dataN (n - i - 1) := by
  have h1 : dataN n = dataN i ++ ('a' :: 'v' :: dataN (n - i - 1)) := by
    have h2 : dataN (i + (1 + (n - i - 1))) = dataN i ++ ('a' :: 'v' :: dataN (n - i - 1)) := by
      rw [dataN_add, dataN_add]
      rfl
    have h3 : i + (1 + (n - i - 1)) = n := by omega
    rw [h3] at h2
    exact h2
  rw [h1]
  rw [show 2 * i = (dataN i).length from (dataN_length i).symm]
  exact List.drop_left _ _

theorem lookupKeyAt (f : GenFile) (i n : Nat) (h : i < n) (hd : f.data = dataN n) :
    lookup_file_value f (.String (2 * i) 1) = .ok (.String ['a']) := by
  simp only [lookup_file_value, hd]
  rw [if_pos (by rw [dataN_length]; omega)]
  rw [dataN_drop i n h]
  rfl

theorem lookupValAt (f : GenFile) (i n : Nat) (h : i < n) (hd : f.data = dataN n) :
    lookup_file_value f (.String (2 * i + 1) 1) = .ok (.String ['v']) := by
  simp only [lookup_file_value, hd]
  rw [if_pos (by rw [dataN_length]; omega)]
  rw [show 2 * i + 1 = 2 * i + 1 from rfl, ← List.drop_drop]
  rw [dataN_drop i n h]
  rfl

theorem lookup_entry_slot (f : GenFile) (i n : Nat) (h : i < n) (hd : f.data = dataN n) :
    lookup_entry f (.Set (.String (2 * i) 1) (.String (2 * i + 1) 1)) =
      .ok memAV := by
  simp only [lookup_entry]
  rw [lookupKeyAt f i n h hd, lookupValAt f i n h hd]
  rfl

theorem slotsFrom_length (i m : Nat) : (slotsFrom i m).length = m := by
  induction m generalizing i with
  | zero => rfl
  | succ m ih => simp [slotsFrom, ih]

theorem slotsFrom_snoc (m i : Nat) :
    slotsFrom i m ++ [mkSlot (i + m)] = slotsFrom i (m + 1) := by
  induction m generalizing i with
  | zero => simp [slotsFrom]
  | succ m ih =>
      rw [slotsFrom, List.cons_append]
      rw [show i + (m + 1) = (i + 1) + m from by omega]
      rw [ih (i + 1)]
      rfl

theorem readAll_slots (n : Nat) (f : GenFile) (hd : f.data = dataN n) :
    ∀ m i, i + m ≤ n →
      readAll f (slotsFrom i m) = .ok (List.replicate m memAV) := by
  intro m
  induction m with
  | zero => intro i _; rfl
  | succ m ih =>
      intro i h
      rw [slotsFrom, mkSlot]
      simp only [readAll]
      rw [lookup_entry_slot f i n (by omega) hd]
      rw [ih (i + 1) (by omega)]
      rfl

theorem idxInsert_same (k : mem.Key) (e1 e2 : IndexEntry) :
    ∀ idx, idxInsert (idxInsert idx k e1) k e2 = idxInsert idx k e2 := by
  intro idx
  induction idx with
  | nil => simp [idxInsert]
  | cons hd tl ih =>
      by_cases hk : hd.1 = k
      · obtain ⟨k1, e0⟩ := hd
        simp only at hk
        simp [idxInsert, hk]
      · obtain ⟨k1, e0⟩ := hd
        simp only at hk
        simp [idxInsert, hk, ih]

theorem replay_replicate (k : mem.Key) (v : mem.Value) :
    ∀ (m : Nat) (idx : List (mem.Key × IndexEntry)) (gen p : Nat),
      KvStore.replayList idx (List.replicate (m + 1) (.Set k v)) gen p =
        idxInsert idx k ⟨gen, p + m⟩ := by
  intro m
  induction m with
  | zero => intro idx gen p; simp [KvStore.replayList, KvStore.index_entry]
  | succ m ih =>
      intro idx gen p
      rw [List.replicate_succ, KvStore.replayList, KvStore.index_entry]
      rw [ih (idxInsert idx k ⟨gen, p⟩) gen (p + 1)]
      rw [idxInsert_same]
      rw [show p + 1 + m = p + (m + 1) from by omega]

/-! ## Replaying and extending the uniform log -/

theorem load_bulk (n : Nat) (h : 1 ≤ n) :
    KvStore.load (preOpenBulk n) 0 = .ok (n, bulkState n n) := by
  obtain ⟨m, rfl⟩ : ∃ m, n = m + 1 := ⟨n - 1, by omega⟩
  unfold KvStore.load
  simp only [preOpenBulk, List.get?]
  rw [readAll_slots (m + 1) ⟨slotsFrom 0 (m + 1), dataN (m + 1)⟩ rfl (m + 1) 0 (by omega)]
  simp only [memAV]
  rw [replay_replicate]
  simp [bulkState, idxInsert, KvStore.lenInsert]

theorem open_bulk (n : Nat) (h : 1 ≤ n) :
    KvStore.openStore (mkDisk n) = .ok (bulkState n n) := by
  unfold KvStore.openStore
  simp only [mkDisk, List.length_singleton]
  rw [show (1 : Nat) - 1 + 1 = 1 from rfl, show List.range 1 = [0] from by decide]
  unfold KvStore.openGens
  simp only [List.get?, Option.getD, List.nil_append]
  have hpre : (⟨[⟨slotsFrom 0 n, dataN n⟩], [0], 1 - 1, [], []⟩ : KvStore) = preOpenBulk n := rfl
  rw [hpre, load_bulk n h]
  rfl

theorem writeSlot_of_length (slots : List (Option file.Entry)) (p : Nat) (fe : file.Entry)
    (h : slots.length = p) : KvStore.writeSlot slots p fe = slots ++ [some fe] := by
  subst h
  unfold KvStore.writeSlot
  simp [List.take_length, List.drop_eq_nil_of_le]

theorem write_entry_bulk (n : Nat) :
    KvStore.write_entry ⟨slotsFrom 0 n, dataN n⟩ n
        (mem.Entry.Set (.String ['a']) (.String ['v'])) =
      (n, ⟨slotsFrom 0 (n + 1), dataN (n + 1)⟩, n + 1) := by
  simp only [KvStore.write_entry, KvStore.write_value]
  have hkey : ((⟨slotsFrom 0 n, dataN n⟩ : GenFile).data).length = 2 * n := dataN_length n
  have hval : ((dataN n) ++ ['a']).length = 2 * n + 1 := by
    simp [dataN_length]
  have hslots : KvStore.writeSlot (slotsFrom 0 n) n
      (.Set (.String (2 * n) 1) (.String (2 * n + 1) 1)) = slotsFrom 0 (n + 1) := by
    rw [writeSlot_of_length _ _ _ (slotsFrom_length 0 n)]
    have := slotsFrom_snoc n 0
    simp only [Nat.zero_add] at this
    rw [← this, mkSlot]
  simp only [hkey, hval, List.length_singleton]
  rw [hslots]
  simp [dataN, List.append_assoc]

theorem set_bulk (n L : Nat) (h1 : 1 ≤ n) (h4 : n ≤ 4000) :
    KvStore.set (bulkState n L) ['a'] ['v'] = (.ok (), bulkState (n + 1) L) := by
  unfold KvStore.set KvStore.push
  simp only [bulkState, List.get?]
  rw [write_entry_bulk n]
  simp only [List.set]
  rw [if_neg (by simp only [COMPACT_THRESHOLD]; omega)]
  simp [KvStore.index_entry, idxInsert]

/-! ## The 4002-record compaction run -/

theorem compactLoop_set_stale {f : GenFile} {idx : List (mem.Key × IndexEntry)} {gen : Nat}
    {key value : file.Value} {rest : List (Option file.Entry)} {rp d twp : Nat}
    {temp : GenFile} {mem_key : mem.Value} {ie : IndexEntry}
    (hk : lookup_file_value f key = .ok mem_key)
    (hi : idxLookup idx mem_key = some ie)
    (hc : ¬(ie.gen = gen ∧ ie.location = rp)) :
    KvStore.compactLoop f idx gen (some (.Set key value) :: rest) rp d temp twp =
      KvStore.compactLoop f idx gen rest (rp + 1) (d + 1) temp twp := by
  rw [KvStore.compactLoop.eq_3]
  simp only [hk, hi, if_neg hc]

theorem compactLoop_set_live {f : GenFile} {idx : List (mem.Key × IndexEntry)} {gen : Nat}
    {key value : file.Value} {rest : List (Option file.Entry)} {rp d twp : Nat}
    {temp : GenFile} {mem_key mem_value : mem.Value} {ie : IndexEntry}
    (hk : lookup_file_value f key = .ok mem_key)
    (hi : idxLookup idx mem_key = some ie)
    (hc : ie.gen = gen ∧ ie.location = rp)
    (hv : lookup_file_value f value = .ok mem_value) :
    KvStore.compactLoop f idx gen (some (.Set key value) :: rest) rp d temp twp =
      KvStore.compactLoop f idx gen rest (rp + 1) d
        (KvStore.write_entry temp twp (.Set mem_key mem_value)).2.1
        (KvStore.write_entry temp twp (.Set mem_key mem_value)).2.2 := by
  rw [KvStore.compactLoop.eq_3]
  simp only [hk, hi, if_pos hc, hv]

theorem idx4_lookup :
    idxLookup [(.String ['a'], ⟨0, 4001⟩)] (.String ['a']) = some ⟨0, 4001⟩ := rfl

theorem compactLoop_stale (sl rest : List (Option file.Entry)) (temp : GenFile) (twp : Nat) :
    ∀ (m i d : Nat), i + m ≤ 4001 →
      KvStore.compactLoop ⟨sl, dataN 4002⟩ [(.String ['a'], ⟨0, 4001⟩)] 0
          (slotsFrom i m ++ rest) i d temp twp =
        KvStore.compactLoop ⟨sl, dataN 4002⟩ [(.String ['a'], ⟨0, 4001⟩)] 0
          rest (i + m) (d + m) temp twp := by
  intro m
  induction m with
  | zero => intro i d _; simp [slotsFrom]
  | succ m ih =>
      intro i d h
      rw [slotsFrom, List.cons_append, mkSlot]
      rw [compactLoop_set_stale (lookupKeyAt ⟨sl, dataN 4002⟩ i 4002 (by omega) rfl)
        idx4_lookup (by intro hc; obtain ⟨h1, h2⟩ := hc; simp at h2; omega)]
      rw [ih (i + 1) (d + 1) (by omega)]
      rw [show i + 1 + m = i + (m + 1) from by omega]
      rw [show d + 1 + m = d + (m + 1) from by omega]

theorem compactLoop_final (sl : List (Option file.Entry)) :
    KvStore.compactLoop ⟨sl, dataN 4002⟩ [(.String ['a'], ⟨0, 4001⟩)] 0
        (slotsFrom 0 4002) 0 0 GenFile.empty 0 =
      .ok (4002, 4001, ⟨slotsFrom 0 1, dataN 1⟩, 1) := by
  have hsplit : slotsFrom 0 4002 = slotsFrom 0 4001 ++ [mkSlot 4001] := by
    have h1 := slotsFrom_snoc 4001 0
    simp only [Nat.zero_add] at h1
    rw [h1]
  rw [hsplit]
  rw [compactLoop_stale sl [mkSlot 4001] GenFile.empty 0 4001 0 0 (by omega)]
  rw [mkSlot]
  rw [compactLoop_set_live (lookupKeyAt ⟨sl, dataN 4002⟩ 4001 4002 (by omega) rfl)
    idx4_lookup ⟨rfl, by simp⟩ (lookupValAt ⟨sl, dataN 4002⟩ 4001 4002 (by omega) rfl)]
  rw [KvStore.compactLoop.eq_1]
  rfl

theorem compact_eval {s : KvStore} {gen : Nat} {f : GenFile} {rp d twp : Nat} {temp : GenFile}
    (hf : s.files.get? gen = some f)
    (hloop : KvStore.compactLoop f s.index gen f.slots 0 0 GenFile.empty 0 =
      .ok (rp, d, temp, twp))
    (hlen : gen < s.files.length) :
    KvStore.compact s gen =
      (.ok rp, { s with files := s.files.set gen temp, wpos := s.wpos.set gen 0 }) := by
  unfold KvStore.compact
  simp only [hf, hloop]
  rw [KvStore.open_log_file, if_pos (by simpa [List.length_set] using hlen)]

theorem compact_bulkAfterSet (L : Nat) :
    KvStore.compact (bulkAfterSet L) 0 = (.ok 4002, compactedState L) := by
  have h := compact_eval (Eq.refl ((bulkAfterSet L).files.get? 0))
    (compactLoop_final (slotsFrom 0 4002)) (by simp [bulkAfterSet])
  rw [h]
  simp [bulkAfterSet, compactedState]

theorem compactGens_cons_ok {s s1 : KvStore} {g : Nat} {rest : List Nat} {acc n : Nat}
    (hc : KvStore.compact s g = (.ok n, s1)) :
    KvStore.compactGens s (g :: rest) acc = KvStore.compactGens s1 rest n := by
  rw [KvStore.compactGens]
  simp only [hc]

theorem compact_all_eval {s s1 : KvStore} {n : Nat}
    (h : KvStore.compactGens s (List.range (s.current_gen + 1)) 0 = (.ok n, s1))
    (hgt : n > COMPACT_THRESHOLD) :
    KvStore.compact_all s =
      (.ok (), KvStore.open_log_file { s1 with current_gen := s1.current_gen + 1 }
        (s1.current_gen + 1)) := by
  unfold KvStore.compact_all
  simp only [h, if_pos hgt]

theorem compact_all_bulkAfterSet (L : Nat) :
    KvStore.compact_all (bulkAfterSet L) = (.ok (), postCompactState L) := by
  have hg : KvStore.compactGens (bulkAfterSet L)
      (List.range ((bulkAfterSet L).current_gen + 1)) 0 = (.ok 4002, compactedState L) := by
    rw [show (bulkAfterSet L).current_gen = 0 from rfl]
    rw [show List.range (0 + 1) = [0] from rfl]
    rw [compactGens_cons_ok (compact_bulkAfterSet L)]
    rw [KvStore.compactGens]
  rw [compact_all_eval hg (by norm_num [COMPACT_THRESHOLD])]
  simp [KvStore.open_log_file, compactedState, postCompactState, GenFile.empty]

theorem set_eval {s s1 : KvStore} {key value : List Char} {pos : Nat}
    (h : KvStore.push s s.current_gen (.Set (.String key) (.String value)) = (.ok pos, s1)) :
    KvStore.set s key value = (.ok (), s1) := by
  unfold KvStore.set
  simp only [h]

theorem push_eval_compact {s : KvStore} {gen : Nat} {f f1 : GenFile} {wp pos wp1 : Nat}
    {e : mem.Entry} {s2 : KvStore}
    (hf : s.files.get? gen = some f) (hw : s.wpos.get? gen = some wp)
    (hwe : KvStore.write_entry f wp e = (pos, f1, wp1))
    (hgt : pos > COMPACT_THRESHOLD)
    (hca : KvStore.compact_all { s with
        files := s.files.set gen f1
        wpos := s.wpos.set gen wp1
        index := KvStore.index_entry s.index e gen pos } = (.ok (), s2)) :
    KvStore.push s gen e = (.ok pos, s2) := by
  unfold KvStore.push
  simp only [hf, hw, hwe, if_pos hgt, hca]

theorem set_bulk_top (L : Nat) :
    KvStore.set (bulkState 4001 L) ['a'] ['v'] = (.ok (), postCompactState L) := by
  apply set_eval
  have hwe : KvStore.write_entry ⟨slotsFrom 0 4001, dataN 4001⟩ 4001
      (mem.Entry.Set (.String ['a']) (.String ['v'])) =
      (4001, ⟨slotsFrom 0 4002, dataN 4002⟩, 4002) := by
    have h := write_entry_bulk 4001
    norm_num at h
    exact h
  refine push_eval_compact rfl rfl hwe (by norm_num [COMPACT_THRESHOLD]) ?_
  exact compact_all_bulkAfterSet L

/-! ## Iterated sets from a fresh store -/

theorem iterSets_bulk : ∀ n, 1 ≤ n → n ≤ 4001 →
    iterSets n = bulkState n 0 ∧ iterSetsOk n = true := by
  intro n
  induction n with
  | zero => intro h _; omega
  | succ n ih =>
      intro _ h2
      by_cases hn : n = 0
      · subst hn
        exact ⟨rfl, rfl⟩
      · obtain ⟨hs, hok⟩ := ih (by omega) (by omega)
        have hset := set_bulk n 0 (by omega) (by omega)
        refine ⟨?_, ?_⟩
        · rw [iterSets, hs, hset]
        · rw [iterSetsOk, hok, hs, hset]
          rfl

theorem iterSets_4002 : iterSets 4002 = postCompactState 0 ∧ iterSetsOk 4002 = true := by
  obtain ⟨hs, hok⟩ := iterSets_bulk 4001 (by omega) (by omega)
  have hset := set_bulk_top 0
  refine ⟨?_, ?_⟩
  · rw [show (4002 : Nat) = 4001 + 1 from rfl, iterSets, hs, hset]
  · rw [show (4002 : Nat) = 4001 + 1 from rfl, iterSetsOk, hok, hs, hset]
    rfl

/-! ## The round-trip and persistence claims -/

/-- C1: the round-trip property P1 fails on directories whose replay
crosses the compaction threshold.  Opening a directory holding 4001
prior `Set("a",·)` records succeeds; `set("a","v")` then succeeds (its
record lands at position 4001 and triggers `compact_all`, which rewrites
generation 0 to one record at position 0 but never rebuilds the index);
and `get("a")` returns `Ok(None)` instead of `Some("v")`. -/
theorem C1_roundtrip_fails_after_compaction :
    KvStore.openStore (mkDisk 4001) = .ok (bulkState 4001 4001) ∧
    (KvStore.set (bulkState 4001 4001) ['a'] ['v']).1 = .ok () ∧
    (KvStore.set (bulkState 4001 4001) ['a'] ['v']).2 = postCompactState 4001 ∧
    (KvStore.get (postCompactState 4001) ['a']).1 = .ok none ∧
    ((.ok none : Except Error (Option (List Char))) ≠ .ok (some ['v'])) := by
  have hset := set_bulk_top 4001
  refine ⟨open_bulk 4001 (by omega), ?_, ?_, rfl, by intro hx; cases hx⟩
  · rw [hset]
  · rw [hset]

/-- C3: persistence (P4) fails once a write sequence crosses the
compaction threshold.  After 4002 successful `set("a","v")` calls on a
fresh store, the pre-close engine answers `get("a") = Ok(None)` (stale
index after compaction), while closing (flushing) and reopening the same
files yields an engine that answers `get("a") = Ok(Some("v"))` — the two
engines disagree. -/
theorem C3_reopen_disagrees_with_preclose :
    iterSets 4002 = postCompactState 0 ∧
    iterSetsOk 4002 = true ∧
    (KvStore.get (postCompactState 0) ['a']).1 = .ok none ∧
    KvStore.openStore (KvStore.close (postCompactState 0)) = .ok reopenedState ∧
    (KvStore.get reopenedState ['a']).1 = .ok (some ['v']) ∧
    ((.ok none : Except Error (Option (List Char))) ≠ .ok (some ['v'])) :=
  ⟨iterSets_4002.1, iterSets_4002.2, rfl, rfl, rfl, by intro hx; cases hx⟩

end Kvs
